import Mathlib

/-
Shallow embedding of src/pkg/yqlib/data_navigator.go (repository turrisxyz/yq).

Go's yaml.Node values are pointer-linked records; aliasing and in-place
mutation are observable (Get returns nodes by reference, Update mutates in
place, Delete rewrites a parent's Content slice).  We therefore model the
node graph as an explicit heap: a node is an index (NodeId) into a list of
node records, and Content is a list of NodeIds.  Go runtime panics
(out-of-range slice index, Content[0] of an empty document) are modelled as
an explicit error value distinct from ordinary returned errors.
-/

set_option maxRecDepth 10000

namespace Yq

/-- Kind mirrors yaml.Kind.  knone is the zero value 0 of the Go type,
which guessKind compares against explicitly. -/
inductive YKind where
  | knone
  | kdoc
  | kseq
  | kmap
  | kscalar
  | kalias
deriving DecidableEq, Repr

/-- Record of the yaml.Node fields the navigator reads or writes
(Value, Tag, Kind, Style, Content, and the three comments).  Content holds
heap references to the children. -/
structure YNodeData where
  kind : YKind := .knone
  value : String := ""
  tag : String := ""
  style : Nat := 0
  content : List Nat := []
  headComment : String := ""
  lineComment : String := ""
  footComment : String := ""
deriving DecidableEq, Repr

instance : Inhabited YNodeData := ⟨{}⟩

abbrev NodeId := Nat

/-- The heap of allocated yaml.Node records; a NodeId is an index into
data.  Allocation appends, so fresh ids equal the current length. -/
structure Heap where
  data : List YNodeData
deriving DecidableEq, Repr

def Heap.get (h : Heap) (i : NodeId) : YNodeData := h.data.getD i default

def Heap.set (h : Heap) (i : NodeId) (d : YNodeData) : Heap := ⟨h.data.set i d⟩

def Heap.alloc (h : Heap) (d : YNodeData) : NodeId × Heap :=
  (h.data.length, ⟨h.data ++ [d]⟩)

/-- Errors: errParseInt models the non-nil error of strconv.ParseInt that
the navigator returns to its caller; panicBounds models a Go runtime panic
(index or slice bounds out of range), which unwinds rather than being
returned. -/
inductive GoErr where
  | errParseInt
  | panicBounds
deriving DecidableEq, Repr

/-- Value of one decimal digit character, none for a non-digit. -/
def digitVal (c : Char) : Option Nat :=
  if '0' ≤ c ∧ c ≤ '9' then some (c.toNat - '0'.toNat) else none

def parseDigitsAux : List Char → Nat → Option Nat
  | [], acc => some acc
  | c :: rest, acc =>
    match digitVal c with
    | some d => parseDigitsAux rest (acc * 10 + d)
    | none => none

/-- Model of strconv.ParseInt(s, 10, 64): optional sign, then one or more
decimal digits, value within the signed 64-bit range; none models a
non-nil error (syntax or range). -/
def parseGoInt (s : String) : Option Int :=
  match s.toList with
  | [] => none
  | c :: rest =>
    let signDigits : Bool × List Char :=
      if c = '-' then (true, rest)
      else if c = '+' then (false, rest)
      else (false, c :: rest)
    match signDigits.2, parseDigitsAux signDigits.2 0 with
    | [], _ => none
    | _, none => none
    | _, some n =>
      if signDigits.1 then
        if n ≤ 2 ^ 63 then some (-(n : Int)) else none
      else
        if n ≤ 2 ^ 63 - 1 then some (n : Int) else none

/-- Model of strings.TrimSuffix(key, "*") on the character list of key:
drop the final character when it is a star. -/
def trimSuffixStar (l : List Char) : List Char :=
  if l.getLast? = some '*' then l.dropLast else l

/-- matchesKey from data_navigator.go: if trimming a trailing star changed
the segment, prefix-match the remainder; otherwise require equality. -/
def matchesKey (key actual : String) : Bool :=
  let pm := trimSuffixStar key.toList
  if pm ≠ key.toList then pm.isPrefixOf actual.toList
  else actual == key

/-- guessKind from data_navigator.go: the kind the next node must have,
from the remaining path tail and the existing kind (0 when no hint). -/
def guessKind (tail : List String) (guess : YKind) : YKind :=
  match tail with
  | [] => if guess = .knone then .kscalar else guess
  | t0 :: _ =>
    if t0 = "+" ∨ (parseGoInt t0).isSome then .kseq
    else if t0 = "*" ∧ (guess = .kseq ∨ guess = .kmap) then guess
    else .kmap

/-- getOrReplace from data_navigator.go: keep the node if its kind already
matches, otherwise allocate a fresh empty node of the expected kind. -/
def getOrReplace (h : Heap) (original : NodeId) (expectedKind : YKind) :
    NodeId × Heap :=
  if (h.get original).kind ≠ expectedKind then h.alloc { kind := expectedKind }
  else (original, h)

/-- Document unwrap at the top of Visit: a DocumentNode stands for its
first child; Content[0] of an empty document is a runtime panic (none). -/
def unwrapDoc (h : Heap) (id : NodeId) : Option NodeId :=
  if (h.get id).kind = .kdoc then (h.get id).content.head? else some id

/-- Result of a traversal: the visitor state, the heap, and an optional
error (some panicBounds for a Go panic). -/
abbrev VisitRes (σ : Type) := σ × Heap × Option GoErr

/-- A visitor callback (VisitorFn), generalised with a state σ so that
Get's closure over matchingNodes is expressible. -/
abbrev Visitor (σ : Type) := σ → Heap → NodeId → VisitRes σ

/-- Loop body of splatMap: iterate Content with its index, skip even
(key) positions, coerce each value entry and visit it.  As in the Go
source, the coerced node is assigned only to the loop-local variable, so
the parent's Content is never updated here. -/
def splatMap {σ : Type} (tail : List String) (vt : Visitor σ) :
    List NodeId → Nat → σ → Heap → VisitRes σ
  | [], _, st, h => (st, h, none)
  | c :: rest, idx, st, h =>
    if idx % 2 = 0 then splatMap tail vt rest (idx + 1) st h
    else
      let ch := getOrReplace h c (guessKind tail (h.get c).kind)
      match vt st ch.2 ch.1 with
      | (st', h', some e) => (st', h', some e)
      | (st', h', none) => splatMap tail vt rest (idx + 1) st' h'

/-- Loop body of splatArray: coerce and visit every element; like
splatMap, the coerced node is not written back into Content. -/
def splatArray {σ : Type} (tail : List String) (vt : Visitor σ) :
    List NodeId → σ → Heap → VisitRes σ
  | [], st, h => (st, h, none)
  | c :: rest, st, h =>
    let ch := getOrReplace h c (guessKind tail (h.get c).kind)
    match vt st ch.2 ch.1 with
    | (st', h', some e) => (st', h', some e)
    | (st', h', none) => splatArray tail vt rest st' h'

/-- visitMatchingEntries as called from recurseMap: scan the (snapshot of)
Content with its index; at each even index whose key node's Value matches,
coerce the paired value slot in the live Content, store it back, and visit
it.  Returns the traversal result and the visited flag.  (Only odd slots
are written during the loop, so reading keys from the snapshot agrees with
the live backing array.) -/
def visitMatchingEntries {σ : Type} (head : String) (tail : List String)
    (vt : Visitor σ) (mapId : NodeId) :
    List NodeId → Nat → Bool → σ → Heap → VisitRes σ × Bool
  | [], _, visited, st, h => ((st, h, none), visited)
  | c :: rest, idx, visited, st, h =>
    if idx % 2 = 0 ∧ matchesKey head (h.get c).value then
      match (h.get mapId).content[idx + 1]? with
      | none => ((st, h, some .panicBounds), visited)
      | some cv =>
        let ch := getOrReplace h cv (guessKind tail (h.get cv).kind)
        let h2 := ch.2.set mapId
          { ch.2.get mapId with
            content := (ch.2.get mapId).content.set (idx + 1) ch.1 }
        match vt st h2 ch.1 with
        | (st', h', some e) => ((st', h', some e), visited)
        | (st', h', none) =>
          visitMatchingEntries head tail vt mapId rest (idx + 1) true st' h'
    else visitMatchingEntries head tail vt mapId rest (idx + 1) visited st h

/-- recurseMap: run visitMatchingEntries over Content; if nothing was
visited, append a fresh scalar key node holding head and a fresh value
node of kind guessKind(tail, 0), then visit the new value node. -/
def recurseMap {σ : Type} (head : String) (tail : List String)
    (vt : Visitor σ) (mapId : NodeId) (st : σ) (h : Heap) : VisitRes σ :=
  match visitMatchingEntries head tail vt mapId (h.get mapId).content 0 false st h with
  | ((st', h', some e), _) => (st', h', some e)
  | ((st', h', none), true) => (st', h', none)
  | ((st', h', none), false) =>
    let ka := h'.alloc { kind := .kscalar, value := head }
    let va := ka.2.alloc { kind := guessKind tail .knone }
    let h3 := va.2.set mapId
      { va.2.get mapId with
        content := (va.2.get mapId).content ++ [ka.1, va.1] }
    vt st' h3 va.1

/-- appendArray: allocate a fresh node of kind guessKind(tail, 0), append
it to Content, and visit it. -/
def appendArray {σ : Type} (tail : List String) (vt : Visitor σ)
    (seqId : NodeId) (st : σ) (h : Heap) : VisitRes σ :=
  let na := h.alloc { kind := guessKind tail .knone }
  let h2 := na.2.set seqId
    { na.2.get seqId with content := (na.2.get seqId).content ++ [na.1] }
  vt st h2 na.1

/-- recurseArray: parse head as an int (error on failure); index ≥ length
is a silent no-op; a negative index passes that guard and then panics on
Content[index]; otherwise coerce the element, store it back, and visit. -/
def recurseArray {σ : Type} (head : String) (tail : List String)
    (vt : Visitor σ) (seqId : NodeId) (st : σ) (h : Heap) : VisitRes σ :=
  match parseGoInt head with
  | none => (st, h, some .errParseInt)
  | some i =>
    if ((h.get seqId).content.length : Int) ≤ i then (st, h, none)
    else if i < 0 then (st, h, some .panicBounds)
    else
      let n := i.toNat
      let c := (h.get seqId).content.getD n 0
      let ch := getOrReplace h c (guessKind tail (h.get c).kind)
      let h2 := ch.2.set seqId
        { ch.2.get seqId with
          content := (ch.2.get seqId).content.set n ch.1 }
      vt st h2 ch.1

/-- Visit from data_navigator.go, fused with recurse: unwrap a document
wrapper, call the visitor when the path is empty, otherwise dispatch on
the node kind and the head segment.  Structurally recursive on the path;
the loop helpers receive the specialised recursive call for the tail. -/
def Visit {σ : Type} (vis : Visitor σ) : List String → σ → Heap → NodeId → VisitRes σ
  | [] => fun st h id =>
    match unwrapDoc h id with
    | none => (st, h, some .panicBounds)
    | some rid => vis st h rid
  | head :: tail => fun st h id =>
    match unwrapDoc h id with
    | none => (st, h, some .panicBounds)
    | some rid =>
      match (h.get rid).kind with
      | .kmap =>
        if head = "*" then splatMap tail (Visit vis tail) (h.get rid).content 0 st h
        else recurseMap head tail (Visit vis tail) rid st h
      | .kseq =>
        if head = "*" then splatArray tail (Visit vis tail) (h.get rid).content st h
        else if head = "+" then appendArray tail (Visit vis tail) rid st h
        else recurseArray head tail (Visit vis tail) rid st h
      | _ => (st, h, none)

/-- Get's visitor: append the matched node to the collected list. -/
def getVisitor : Visitor (List NodeId) := fun ns h id => (ns ++ [id], h, none)

/-- Get from data_navigator.go: collect every visited node; zero matches
give (none, nil error), one match gives that node, several give a fresh
SequenceNode whose Content is the matched nodes.  The error returned by
Visit is discarded (the Go source ignores it), but a panic unwinds. -/
def Get (h : Heap) (root : NodeId) (path : List String) :
    Option NodeId × Heap × Option GoErr :=
  match Visit getVisitor path [] h root with
  | (_, h', some .panicBounds) => (none, h', some .panicBounds)
  | (nodes, h', _) =>
    if nodes.length = 0 then (none, h', none)
    else if nodes.length = 1 then (some (nodes.getD 0 0), h', none)
    else
      let na := h'.alloc { kind := .kseq, content := nodes }
      (some na.1, na.2, none)

/-- Update's visitor: overwrite Value, Tag, Kind, Style, Content and the
three comment fields of the matched node, in place. -/
def updateVisitor (changes : YNodeData) : Visitor Unit := fun _ h id =>
  let nd := h.get id
  ((), h.set id
    { nd with
      value := changes.value
      tag := changes.tag
      kind := changes.kind
      style := changes.style
      content := changes.content
      headComment := changes.headComment
      lineComment := changes.lineComment
      footComment := changes.footComment }, none)

/-- Update from data_navigator.go. -/
def Update (h : Heap) (root : NodeId) (path : List String)
    (changes : YNodeData) : Heap × Option GoErr :=
  match Visit (updateVisitor changes) path () h root with
  | (_, h', e) => (h', e)

/-- Go slice splice performed by Delete's mapping callback,
append(original[:i], original[i+2:]...), seen on the shared backing array
of length n: positions i .. n-3 receive the old positions i+2 .. n-1 and
the final two positions keep their old contents. -/
def delSplice (a : List NodeId) (i : Nat) : List NodeId :=
  a.take i ++ a.drop (i + 2) ++ a.drop (a.length - 2)

/-- visitMatchingEntries as called from Delete's mapping branch.  The Go
loop ranges over the original slice header while each callback splices
through `original`, another header over the same backing array, so later
iterations read the shifted elements.  We carry the backing array `a`
(whose length never changes) and the visited flag; the indices list is
range(n) for the original length n. -/
def deleteMatchingEntries (h : Heap) (key : String) :
    List Nat → List NodeId → Bool → List NodeId × Bool
  | [], a, visited => (a, visited)
  | idx :: rest, a, visited =>
    if idx % 2 = 0 ∧ matchesKey key (h.get (a.getD idx 0)).value then
      deleteMatchingEntries h key rest (delSplice a idx) true
    else deleteMatchingEntries h key rest a visited

/-- Delete's visitor, the closure over lastBit: on a sequence, parse
lastBit (propagating the parse error), ignore an index past the end,
panic on a negative index, otherwise splice the element out; on a
mapping, run the matching-entries loop and, when anything matched, the
Content header left behind is the first n-2 cells of the backing array. -/
def deleteVisitor (lastBit : String) : Visitor Unit := fun _ h id =>
  let nd := h.get id
  if nd.kind = .kseq then
    match parseGoInt lastBit with
    | none => ((), h, some .errParseInt)
    | some i =>
      if (nd.content.length : Int) ≤ i then ((), h, none)
      else if i < 0 then ((), h, some .panicBounds)
      else
        let n := i.toNat
        ((), h.set id
          { nd with content := nd.content.take n ++ nd.content.drop (n + 1) },
          none)
  else if nd.kind = .kmap then
    let r := deleteMatchingEntries h lastBit
      (List.range nd.content.length) nd.content false
    if r.2 then
      ((), h.set id { nd with content := r.1.take (nd.content.length - 2) }, none)
    else ((), h, none)
  else ((), h, none)

/-- Delete from data_navigator.go: split the path into its last segment
and the rest and visit the container path with deleteVisitor.  The Go
source indexes path[len(path)-1] unconditionally, so an empty path is an
index-out-of-range panic before any traversal. -/
def Delete (h : Heap) (root : NodeId) (path : List String) :
    Heap × Option GoErr :=
  if path = [] then (h, some .panicBounds)
  else
    let lastBit := path.getLastD ""
    let newTail := path.dropLast
    match Visit (deleteVisitor lastBit) newTail () h root with
    | (_, h', e) => (h', e)

/-! Concrete document fixtures used by the theorems below. -/

/-- Mapping with a duplicated key, {a: 1, a: 2}: node 0 is the map, nodes
1 and 3 are the two key nodes "a", nodes 2 and 4 the scalars 1 and 2. -/
def hDup : Heap := ⟨[{ kind := .kmap, content := [1, 2, 3, 4] },
  { kind := .kscalar, value := "a" }, { kind := .kscalar, value := "1" },
  { kind := .kscalar, value := "a" }, { kind := .kscalar, value := "2" }]⟩

/-- Mapping {a: 1}: node 0 the map, node 1 the key "a", node 2 the scalar. -/
def hOne : Heap := ⟨[{ kind := .kmap, content := [1, 2] },
  { kind := .kscalar, value := "a" }, { kind := .kscalar, value := "1" }]⟩

/-- Sequence [10]: node 0 the sequence, node 1 the scalar 10. -/
def hSeq1 : Heap := ⟨[{ kind := .kseq, content := [1] },
  { kind := .kscalar, value := "10" }]⟩

/-- Mapping {s: d} with a single pair: node 0 the map, node 1 the key
node carrying s, node 2 the value node with arbitrary data d. -/
def hPair (s : String) (d : YNodeData) : Heap :=
  ⟨[{ kind := .kmap, content := [1, 2] },
    { kind := .kscalar, value := s }, d]⟩

/-- Singleton sequence whose element node 1 carries arbitrary data d. -/
def hSeqOne (d : YNodeData) : Heap :=
  ⟨[{ kind := .kseq, content := [1] }, d]⟩

/-- Two-element sequence with element nodes 1 and 2 of data d1, d2. -/
def hSeqTwo (d1 d2 : YNodeData) : Heap :=
  ⟨[{ kind := .kseq, content := [1, 2] }, d1, d2]⟩

/-- Mapping {s: d1, t: d2}: keys at nodes 1 and 3, values at 2 and 4. -/
def hTwoKeys (s t : String) (d1 d2 : YNodeData) : Heap :=
  ⟨[{ kind := .kmap, content := [1, 2, 3, 4] },
    { kind := .kscalar, value := s }, d1,
    { kind := .kscalar, value := t }, d2]⟩

/-- Mapping {u: 7, a: 1, b: 2}: keys at nodes 1, 3, 5 and scalar values
at nodes 2, 4, 6. -/
def hThreeKeys : Heap :=
  ⟨[{ kind := .kmap, content := [1, 2, 3, 4, 5, 6] },
    { kind := .kscalar, value := "u" }, { kind := .kscalar, value := "7" },
    { kind := .kscalar, value := "a" }, { kind := .kscalar, value := "1" },
    { kind := .kscalar, value := "b" }, { kind := .kscalar, value := "2" }]⟩

/-- Sequence [10, 20] with scalar element nodes 1 and 2. -/
def hSeqTwo10 : Heap :=
  hSeqTwo { kind := .kscalar, value := "10" }
    { kind := .kscalar, value := "20" }

/-- Heap and map Content after recurseMap's auto-creation appends the
fresh key node (id h.data.length) and fresh value node (id
h.data.length + 1) for a head segment that matched no key. -/
def autoCreated (h : Heap) (mapId : NodeId) (head : String)
    (tail : List String) : Heap :=
  Heap.set ⟨h.data ++ [{ kind := .kscalar, value := head },
                       { kind := guessKind tail .knone }]⟩ mapId
    { h.get mapId with
      content := (h.get mapId).content ++ [h.data.length, h.data.length + 1] }

/-- The in-range branch of recurseArray, written out: coerce the element
at position n, store it back into Content, and continue with it. -/
def inBoundsIndexStep {σ : Type} (tail : List String) (vt : Visitor σ)
    (seqId : NodeId) (n : Nat) (st : σ) (h : Heap) : VisitRes σ :=
  let c := (h.get seqId).content.getD n 0
  let ch := getOrReplace h c (guessKind tail (h.get c).kind)
  let h2 := ch.2.set seqId
    { ch.2.get seqId with content := (ch.2.get seqId).content.set n ch.1 }
  vt st h2 ch.1

/-! Helper lemmas shared by several claim theorems. -/

/-- Every segment matches itself: an exact segment by equality, a
star-terminated segment because the trimmed prefix is its own prefix. -/
theorem matchesKey_self (s : String) : matchesKey s s = true := by
  unfold matchesKey trimSuffixStar
  by_cases hl : s.data.getLast? = some '*'
  · have hne : s.data.dropLast ≠ s.data := by
      intro he
      have h0 : s.data ≠ [] := by
        intro hnil
        rw [hnil] at hl
        simp at hl
      have hlen := congrArg List.length he
      rw [List.length_dropLast] at hlen
      have hpos : 0 < s.data.length := List.length_pos.mpr h0
      omega
    have hpre : s.data.dropLast.isPrefixOf s.data = true :=
      List.isPrefixOf_iff_prefix.mpr (List.dropLast_prefix s.data)
    simp [String.toList, hl, hne, hpre]
  · simp [String.toList, hl]

/-- A node whose recorded kind is not knone lives inside the heap: reads
past the end of the store give the default record of kind knone. -/
theorem id_lt_of_kind {h : Heap} {i : NodeId} {k : YKind}
    (hk : (h.get i).kind = k) (hne : k ≠ .knone) : i < h.data.length := by
  by_contra hge
  have : h.get i = default := by
    unfold Heap.get
    exact List.getD_eq_default _ _ (Nat.le_of_not_lt hge)
  rw [this] at hk
  exact hne hk.symm

/-- visitMatchingEntries leaves everything untouched when no key at an
even position matches. -/
theorem visitMatchingEntries_no_match {σ : Type} (head : String)
    (tail : List String) (vt : Visitor σ) (mapId : NodeId) (h : Heap) :
    ∀ (entries : List NodeId) (idx : Nat) (visited : Bool) (st : σ),
      (∀ j < entries.length, (idx + j) % 2 = 0 →
        matchesKey head (h.get (entries.getD j 0)).value = false) →
      visitMatchingEntries head tail vt mapId entries idx visited st h =
        ((st, h, none), visited) := by
  intro entries
  induction entries with
  | nil => intro idx visited st _; rfl
  | cons c rest ih =>
    intro idx visited st hno
    unfold visitMatchingEntries
    have hcond : ¬ (idx % 2 = 0 ∧ matchesKey head (h.get c).value = true) := by
      rintro ⟨hpar, hm⟩
      have := hno 0 (by simp) (by simpa using hpar)
      simp only [List.getD_cons_zero] at this
      rw [this] at hm
      exact Bool.false_ne_true hm
    rw [if_neg (by simpa using hcond)]
    exact ih (idx + 1) visited st (fun j hj hp => by
      have := hno (j + 1) (by simpa using Nat.succ_lt_succ hj)
        (by simpa [Nat.add_assoc, Nat.add_comm 1 j] using hp)
      simpa using this)

/-- Reading another cell than the one written leaves it unchanged. -/
theorem Heap.get_set_ne (H : Heap) (j : NodeId) (d : YNodeData) (i : NodeId)
    (hne : i ≠ j) : (H.set j d).get i = H.get i := by
  unfold Heap.get Heap.set
  rw [List.getD_eq_getElem?_getD, List.getD_eq_getElem?_getD,
    List.getElem?_set_ne (Ne.symm hne)]

/-- Reading the written cell of a valid id gives the written record. -/
theorem Heap.get_set_self (H : Heap) (j : NodeId) (d : YNodeData)
    (hj : j < H.data.length) : (H.set j d).get j = d := by
  unfold Heap.get Heap.set
  rw [List.getD_eq_getElem?_getD, List.getElem?_set_self hj]
  rfl

/-- Setting an in-range cell to the value it already holds is the
identity on lists. -/
theorem list_set_getD_self {α : Type} (l : List α) (n : Nat) (d : α)
    (hn : n < l.length) : l.set n (l.getD n d) = l := by
  induction l generalizing n with
  | nil => simp at hn
  | cons a t ih =>
    cases n with
    | zero => simp
    | succ m =>
      simp only [List.getD_cons_succ, List.set_cons_succ, List.cons.injEq,
        true_and]
      exact ih m (by simpa using hn)

/-- Setting the second slot of an embedded pair to the value it already
holds is the identity. -/
theorem set_append_snd {α : Type} (pre : List α) (a b : α)
    (post : List α) :
    (pre ++ a :: b :: post).set (pre.length + 1) b = pre ++ a :: b :: post := by
  induction pre with
  | nil => rfl
  | cons c t ih =>
    simp only [List.cons_append, List.length_cons, List.set_cons_succ, ih]

/-- Writing back the record just read is the identity on heaps. -/
theorem Heap.set_get_self (h : Heap) (i : NodeId) (hi : i < h.data.length) :
    h.set i (h.get i) = h := by
  cases h with
  | mk data =>
    unfold Heap.set Heap.get
    rw [list_set_getD_self data i default hi]

/-- Heap.set does not change the number of allocated records. -/
theorem Heap.length_set (h : Heap) (j : NodeId) (d : YNodeData) :
    (h.set j d).data.length = h.data.length := by
  simp [Heap.set]

/-- One step of the recurseMap scan, spelled out. -/
theorem visitMatchingEntries_cons {σ : Type} (head : String)
    (tail : List String) (vt : Visitor σ) (mapId : NodeId) (c : NodeId)
    (rest : List NodeId) (idx : Nat) (visited : Bool) (st : σ) (h : Heap) :
    visitMatchingEntries head tail vt mapId (c :: rest) idx visited st h =
      if idx % 2 = 0 ∧ matchesKey head (h.get c).value = true then
        match (h.get mapId).content[idx + 1]? with
        | none => ((st, h, some .panicBounds), visited)
        | some cv =>
          let ch := getOrReplace h cv (guessKind tail (h.get cv).kind)
          let h2 := ch.2.set mapId
            { ch.2.get mapId with
              content := (ch.2.get mapId).content.set (idx + 1) ch.1 }
          match vt st h2 ch.1 with
          | (st', h', some e) => ((st', h', some e), visited)
          | (st', h', none) =>
            visitMatchingEntries head tail vt mapId rest (idx + 1) true st' h'
      else visitMatchingEntries head tail vt mapId rest (idx + 1) visited st h
    := rfl

/-- visitMatchingEntries walks straight over a prefix of entries none of
whose even positions matches, leaving state, heap and flag untouched. -/
theorem visitMatchingEntries_skip {σ : Type} (head : String)
    (tail : List String) (vt : Visitor σ) (mapId : NodeId) (h : Heap) :
    ∀ (pre rest : List NodeId) (idx : Nat) (visited : Bool) (st : σ),
      (∀ j < pre.length, (idx + j) % 2 = 0 →
        matchesKey head (h.get (pre.getD j 0)).value = false) →
      visitMatchingEntries head tail vt mapId (pre ++ rest) idx visited st h =
        visitMatchingEntries head tail vt mapId rest (idx + pre.length)
          visited st h := by
  intro pre
  induction pre with
  | nil => intro rest idx visited st _; simp
  | cons c pre' ih =>
    intro rest idx visited st hno
    have hcond : ¬ (idx % 2 = 0 ∧ matchesKey head (h.get c).value = true) := by
      rintro ⟨hpar, hm⟩
      have := hno 0 (by simp) (by simpa using hpar)
      simp only [List.getD_cons_zero] at this
      rw [this] at hm
      exact Bool.false_ne_true hm
    rw [List.cons_append, visitMatchingEntries_cons, if_neg hcond]
    rw [ih rest (idx + 1) visited st (fun j hj hp => by
      have := hno (j + 1) (by simpa using Nat.succ_lt_succ hj)
        (by simpa [Nat.add_assoc, Nat.add_comm 1 j] using hp)
      simpa using this)]
    rw [show idx + 1 + pre'.length = idx + (c :: pre').length from by
      simp only [List.length_cons]
      omega]

/-- A node of non-knone kind never gets coerced when the remaining path
is empty: guessKind([], kind) is the kind itself, so getOrReplace keeps
the original node and the heap. -/
theorem getOrReplace_eq_self (h : Heap) (x : NodeId)
    (hx : (h.get x).kind ≠ .knone) :
    getOrReplace h x (guessKind [] (h.get x).kind) = (x, h) := by
  unfold getOrReplace guessKind
  rw [if_neg hx]
  rw [if_neg (by simp)]

/-- Storing back a record that only rewrites Content with the very list
already stored is the identity on the heap. -/
theorem Heap.set_content_self (h : Heap) (i : NodeId)
    (hi : i < h.data.length) (c : List NodeId)
    (hcc : c = (h.get i).content) :
    h.set i { h.get i with content := c } = h := by
  subst hcc
  exact Heap.set_get_self h i hi

/-- The recurseMap scan over a mapping with exactly one matching key at
even entry position p = pre.length: the prefix is skipped, the matching
pair's value slot is kept (no coercion, by hgr) and stored back (a
no-op, by hset), the callback runs once producing (st', h', none), and
the remaining entries (the value node at odd position, then the
non-matching rest) are walked without further effect. -/
theorem visitMatchingEntries_single {σ : Type} (head : String)
    (tail : List String) (vt : Visitor σ) (mapId : NodeId) (h : Heap)
    (pre post : List NodeId) (kId vId : NodeId) (st st' : σ) (h' : Heap)
    (hc : (h.get mapId).content = pre ++ kId :: vId :: post)
    (hpe : pre.length % 2 = 0)
    (hm : matchesKey head (h.get kId).value = true)
    (hpre : ∀ j < pre.length, j % 2 = 0 →
      matchesKey head (h.get (pre.getD j 0)).value = false)
    (hgr : getOrReplace h vId (guessKind tail (h.get vId).kind) = (vId, h))
    (hset : h.set mapId
      { h.get mapId with
        content := (h.get mapId).content.set (pre.length + 1) vId } = h)
    (hvt : vt st h vId = (st', h', none))
    (hpost : ∀ j < post.length, (pre.length + 2 + j) % 2 = 0 →
      matchesKey head (h'.get (post.getD j 0)).value = false) :
    visitMatchingEntries head tail vt mapId (pre ++ kId :: vId :: post)
        0 false st h = ((st', h', none), true) := by
  rw [visitMatchingEntries_skip head tail vt mapId h pre (kId :: vId :: post)
    0 false st (fun j hj hp => hpre j hj (by simpa using hp))]
  simp only [Nat.zero_add]
  rw [visitMatchingEntries_cons, if_pos ⟨hpe, hm⟩]
  rw [show (h.get mapId).content[pre.length + 1]? = some vId from by
    rw [hc, List.getElem?_append_right (by omega)]
    rw [show pre.length + 1 - pre.length = 1 by omega]
    simp]
  dsimp only
  rw [hgr]
  dsimp only
  rw [hset, hvt]
  dsimp only
  rw [visitMatchingEntries_cons, if_neg (by
    rintro ⟨hpar, _⟩
    omega)]
  exact visitMatchingEntries_no_match head tail vt mapId h' post
    (pre.length + 1 + 1) true st' (fun j hj hp => hpost j hj (by
      have : pre.length + 1 + 1 + j = pre.length + 2 + j := by omega
      rw [← this]
      exact hp))

/-- recurseMap's auto-creation step, for any visitor: a non-splat head
matching no even-positioned key of a mapping appends a fresh scalar key
node holding the head and a fresh value node of kind guessKind(tail, 0),
then continues the traversal on the new value node with the tail. -/
theorem recurseMap_auto_creates {σ : Type} (vis : Visitor σ)
    (st : σ) (h : Heap) (mapId : NodeId) (head : String) (tail : List String)
    (hk : (h.get mapId).kind = .kmap) (hs : head ≠ "*")
    (hnm : ∀ i < (h.get mapId).content.length, i % 2 = 0 →
      matchesKey head (h.get ((h.get mapId).content.getD i 0)).value = false) :
    Visit vis (head :: tail) st h mapId =
      Visit vis tail st (autoCreated h mapId head tail) (h.data.length + 1) ∧
    (autoCreated h mapId head tail).get h.data.length
      = { kind := .kscalar, value := head } ∧
    (autoCreated h mapId head tail).get (h.data.length + 1)
      = { kind := guessKind tail .knone } ∧
    ((autoCreated h mapId head tail).get mapId).content
      = (h.get mapId).content ++ [h.data.length, h.data.length + 1] := by
  have hlt : mapId < h.data.length := id_lt_of_kind hk (by decide)
  have hdoc : unwrapDoc h mapId = some mapId := by
    unfold unwrapDoc
    rw [hk]
    simp
  have hloop := visitMatchingEntries_no_match head tail (Visit vis tail) mapId h
    (h.get mapId).content 0 false st
    (fun j hj hp => hnm j hj (by simpa using hp))
  have happ : h.data ++ [{ kind := .kscalar, value := head }]
      ++ [{ kind := guessKind tail .knone }]
      = h.data ++ [{ kind := .kscalar, value := head },
                   { kind := guessKind tail .knone }] := by
    simp
  have hget : Heap.get ⟨h.data ++ [{ kind := .kscalar, value := head },
      { kind := guessKind tail .knone }]⟩ mapId = h.get mapId := by
    unfold Heap.get
    exact List.getD_append _ _ _ _ hlt
  have hne1 : h.data.length ≠ mapId := hlt.ne'
  have hne2 : h.data.length + 1 ≠ mapId :=
    ne_of_gt (Nat.lt_succ_of_lt hlt)
  have hlt2 : mapId < (h.data ++ [{ kind := .kscalar, value := head },
      { kind := guessKind tail .knone }] : List YNodeData).length := by
    rw [List.length_append]
    exact Nat.lt_add_right _ hlt
  refine ⟨?_, ?_, ?_, ?_⟩
  · simp only [Visit, hdoc, hk]
    rw [if_neg hs]
    unfold recurseMap
    rw [hloop]
    simp only [Heap.alloc, List.length_append, List.length_cons,
      List.length_nil, happ, hget, autoCreated]
  · rw [autoCreated, Heap.get_set_ne _ _ _ _ hne1]
    unfold Heap.get
    rw [List.getD_append_right _ _ _ _ (by omega)]
    simp
  · rw [autoCreated, Heap.get_set_ne _ _ _ _ hne2]
    unfold Heap.get
    rw [List.getD_append_right _ _ _ _ (by omega)]
    simp
  · rw [autoCreated, Heap.get_set_self _ _ _ hlt2]

/-! C1: Delete on a mapping is claimed to remove every matching pair.
The Go callback splices through the shared backing array while the loop
is still ranging over it, so with two matching pairs the second one
survives.  On {a: 1, a: 2}, Delete(root, ["a"]) returns success but the
map still holds the pair a: 2. -/

/-- C1: evaluating Delete at the failing input {a: 1, a: 2} with path
["a"]: the call succeeds, yet the mapping's Content still holds the key
node 3 (whose Value "a" matches the target segment) and its value node 4,
contradicting the claim that no matching pair remains. -/
theorem C1_delete_keeps_second_matching_pair :
    (Delete hDup 0 ["a"]).2 = none ∧
    ((Delete hDup 0 ["a"]).1.get 0).content = [3, 4] ∧
    matchesKey "a" ((Delete hDup 0 ["a"]).1.get 3).value = true ∧
    ((Delete hDup 0 ["a"]).1.get 4).value = "2" := by decide

/-! C2: Delete with an empty path.  The Go source reads
path[len(path)-1] before anything else, so an empty path is an
index-out-of-range panic, not a returned EmptyDeletePath error (no such
error exists anywhere in the code). -/

/-- C2 counterexample: at the concrete tree {a: 1, a: 2}, Delete with the
empty path does not return an ordinary error value at all: it panics
(index out of range) before any traversal, the heap left as it was. -/
theorem C2_empty_path_panics_concrete :
    Delete hDup 0 [] = (hDup, some GoErr.panicBounds) ∧
    (Delete hDup 0 []).2 ≠ some GoErr.errParseInt := by decide

/-- C2 amended: for every tree and root, Delete on the empty path panics
with an index-out-of-range error before any traversal, leaving the tree
unchanged; no EmptyDeletePath error value is ever produced. -/
theorem C2_empty_path_always_panics (h : Heap) (root : NodeId) :
    Delete h root [] = (h, some GoErr.panicBounds) := rfl

/-! C3: splatMap's coercion.  The Go loop writes the coerced fresh node
only into the loop-local range variable, never into value.Content, so the
parent keeps its old child and mutations through the splat are lost. -/

/-- C3: evaluating Update at the failing input {a: "1"} with path
["*", "b"]: the value entry has kind Scalar while InferKind(["b"], Scalar)
is Mapping, so the claim says the parent's Content slot is replaced by a
fresh Mapping before descending.  Instead the parent's Content still
holds node 2 with its scalar data intact, and the update landed on the
detached fresh chain (nodes 3-5), invisible from the original tree. -/
theorem C3_splat_coercion_is_not_stored :
    ((Update hOne 0 ["*", "b"] { kind := .kscalar, value := "2" }).1.get 0).content
        = [1, 2] ∧
    (Update hOne 0 ["*", "b"] { kind := .kscalar, value := "2" }).1.get 2
        = { kind := .kscalar, value := "1" } ∧
    (Update hOne 0 ["*", "b"] { kind := .kscalar, value := "2" }).1.get 3
        = { kind := .kmap, content := [4, 5] } ∧
    (Update hOne 0 ["*", "b"] { kind := .kscalar, value := "2" }).1.get 5
        = { kind := .kscalar, value := "2" } := by decide

/-! C6: the segment matcher on the bare token "*".  TrimSuffix("*", "*")
is the empty string, which differs from "*", so the matcher takes the
prefix branch with an empty required prefix and matches every candidate,
not only the candidate "*". -/

/-- C6 counterexample: the bare segment "*" matches the candidate "abc"
even though "abc" is not equal to "*", refuting the claimed exact-match
behaviour for the bare token. -/
theorem C6_bare_star_matches_everything :
    matchesKey "*" "abc" = true ∧ ("abc" : String) ≠ "*" := by decide

/-- C6 amended: if the segment ends with the character star — including
the bare segment "*", whose required prefix is then empty so that every
candidate matches — the match holds iff the candidate starts with the
segment minus its trailing star; otherwise the match holds iff the
candidate equals the segment exactly. -/
theorem C6_matcher_prefix_or_exact (key actual : String) :
    matchesKey key actual =
      (if key.toList.getLast? = some '*' then
        key.toList.dropLast.isPrefixOf actual.toList
      else actual == key) := by
  unfold matchesKey trimSuffixStar
  by_cases hl : key.data.getLast? = some '*'
  · have hne : key.data.dropLast ≠ key.data := by
      intro he
      have h0 : key.data ≠ [] := by
        intro hnil
        rw [hnil] at hl
        simp at hl
      have hlen := congrArg List.length he
      rw [List.length_dropLast] at hlen
      have hpos : 0 < key.data.length := List.length_pos.mpr h0
      omega
    simp [String.toList, hl, hne]
  · simp [String.toList, hl]

/-! C5: a non-splat head segment that matches no key of a mapping makes
the traversal append a fresh scalar key node holding the literal head and
a fresh value node of kind guessKind(tail, 0), then visit the new value
node with the tail — for every visitor, hence for every operation,
including the read-only Get. -/

/-- C5: for every visitor (so for Get, Update and Delete alike), visiting
a mapping with a non-splat head that matches no even-positioned key
mutates the tree by appending a fresh scalar key node carrying the head
and a fresh value node of kind guessKind(tail, 0), and continues by
visiting the new value node with the tail. -/
theorem C5_unmatched_key_is_auto_created {σ : Type} (vis : Visitor σ)
    (st : σ) (h : Heap) (mapId : NodeId) (head : String) (tail : List String)
    (hk : (h.get mapId).kind = .kmap) (hs : head ≠ "*")
    (hnm : ∀ i < (h.get mapId).content.length, i % 2 = 0 →
      matchesKey head (h.get ((h.get mapId).content.getD i 0)).value = false) :
    Visit vis (head :: tail) st h mapId =
      Visit vis tail st (autoCreated h mapId head tail) (h.data.length + 1) ∧
    (autoCreated h mapId head tail).get h.data.length
      = { kind := .kscalar, value := head } ∧
    (autoCreated h mapId head tail).get (h.data.length + 1)
      = { kind := guessKind tail .knone } ∧
    ((autoCreated h mapId head tail).get mapId).content
      = (h.get mapId).content ++ [h.data.length, h.data.length + 1] :=
  recurseMap_auto_creates vis st h mapId head tail hk hs hnm

/-- C5 witness: on the mapping {a: 1} with the absent key "b" and an
empty tail, the traversal of Get appends the fresh key node 3 ("b") and
the fresh scalar value node 4 and continues on node 4. -/
theorem C5_witness :
    Visit getVisitor ["b"] [] hOne 0 =
      Visit getVisitor [] [] (autoCreated hOne 0 "b" []) 4 ∧
    (autoCreated hOne 0 "b" []).get 3 = { kind := .kscalar, value := "b" } ∧
    (autoCreated hOne 0 "b" []).get 4 = { kind := guessKind [] .knone } ∧
    ((autoCreated hOne 0 "b" []).get 0).content = [1, 2] ++ [3, 4] :=
  C5_unmatched_key_is_auto_created getVisitor [] hOne 0 "b" []
    (by decide) (by decide) (by decide)

/-! C7: Get's classification of the collected matches. -/

/-- C7: when the traversal collects no node, Get returns the no-result
value and a nil error; when it collects exactly one node, Get returns
that very node (the live heap reference, not a copy); when it collects
two or more, Get returns a freshly allocated SequenceNode (its id is the
current heap length, so it is new) whose Content is exactly the list of
matched node ids in visitation order, aliasing the matched nodes. -/
theorem C7_get_result_classification (h : Heap) (root : NodeId)
    (path : List String) :
    (∀ h' e, Visit getVisitor path [] h root = ([], h', e) →
      e ≠ some GoErr.panicBounds → Get h root path = (none, h', none)) ∧
    (∀ x h' e, Visit getVisitor path [] h root = ([x], h', e) →
      e ≠ some GoErr.panicBounds → Get h root path = (some x, h', none)) ∧
    (∀ ns h' e, Visit getVisitor path [] h root = (ns, h', e) →
      e ≠ some GoErr.panicBounds → 2 ≤ ns.length →
      Get h root path =
        (some h'.data.length,
         (h'.alloc { kind := .kseq, content := ns }).2, none)) := by
  refine ⟨?_, ?_, ?_⟩
  · intro h' e hv hne
    unfold Get
    rw [hv]
    match e with
    | none => rfl
    | some .errParseInt => rfl
    | some .panicBounds => exact absurd rfl hne
  · intro x h' e hv hne
    unfold Get
    rw [hv]
    match e with
    | none => rfl
    | some .errParseInt => rfl
    | some .panicBounds => exact absurd rfl hne
  · intro ns h' e hv hne hlen
    unfold Get
    rw [hv]
    have h0 : ¬ ns.length = 0 := by omega
    have h1 : ¬ ns.length = 1 := by omega
    match e with
    | none => simp only [h0, h1, if_false]; rfl
    | some .errParseInt => simp only [h0, h1, if_false]; rfl
    | some .panicBounds => exact absurd rfl hne

/-- C7 witness: on the duplicate-key mapping {a: 1, a: 2} with path
["a"], the traversal collects the two scalar value nodes 2 and 4 in
document order and Get returns the fresh SequenceNode 5 whose Content
aliases exactly those two ids. -/
theorem C7_witness :
    Get hDup 0 ["a"] =
      (some hDup.data.length,
       (hDup.alloc { kind := .kseq, content := [2, 4] }).2, none) :=
  (C7_get_result_classification hDup 0 ["a"]).2.2 [2, 4] hDup none
    (by decide) (by decide) (by decide)

/-! C8: a sequence traversed with a non-star, non-plus head. -/

/-- C8: on a sequence node, a head segment that is neither "*" nor "+"
and fails integer parsing makes the traversal return the parse error (not
a silent no-match); if it parses to an integer at least the Content
length, the traversal returns success with the visitor state and the heap
both unchanged, so the callback was never invoked and the sequence was
not modified. -/
theorem C8_sequence_index_errors {σ : Type} (vis : Visitor σ) (st : σ)
    (h : Heap) (id : NodeId) (head : String) (tail : List String)
    (hk : (h.get id).kind = .kseq) (hs : head ≠ "*") (hp : head ≠ "+") :
    (parseGoInt head = none →
      Visit vis (head :: tail) st h id = (st, h, some GoErr.errParseInt)) ∧
    (∀ i : Int, parseGoInt head = some i →
      ((h.get id).content.length : Int) ≤ i →
      Visit vis (head :: tail) st h id = (st, h, none)) := by
  have hdoc : unwrapDoc h id = some id := by
    unfold unwrapDoc
    rw [hk]
    simp
  constructor
  · intro hpe
    simp only [Visit, hdoc, hk]
    rw [if_neg hs, if_neg hp]
    unfold recurseArray
    rw [hpe]
  · intro i hpi hge
    simp only [Visit, hdoc, hk]
    rw [if_neg hs, if_neg hp]
    unfold recurseArray
    rw [hpi]
    simp only [if_pos hge]

/-- C8 witness: on the sequence [10], the head "x" produces the parse
error, and the head "5" (past the end) leaves state and heap untouched
for the collecting visitor. -/
theorem C8_witness :
    Visit getVisitor ["x"] [] hSeq1 0 = ([], hSeq1, some GoErr.errParseInt) ∧
    Visit getVisitor ["5"] [] hSeq1 0 = ([], hSeq1, none) :=
  ⟨(C8_sequence_index_errors getVisitor [] hSeq1 0 "x" []
      (by decide) (by decide) (by decide)).1 (by decide),
   (C8_sequence_index_errors getVisitor [] hSeq1 0 "5" []
      (by decide) (by decide) (by decide)).2 5 (by decide) (by decide)⟩

/-! C4: Delete followed by Get.  Get's traversal auto-creates any missing
mapping entry (see C5), so after deleting a mapping key the subsequent
Get does not return "no result": it re-creates the entry and returns the
fresh empty node.  For sequences, deleting index i shifts the later
elements down, so Get at i returns the shifted element unless the index
is now past the end. -/

/-- C9 counterexample: on the sequence [10], the concretely-addressed
non-fan-out path ["5"] makes Update succeed without matching anything,
and the immediate Get returns the no-result value, not a node
value-equal to the replacement. -/
theorem C9_update_then_get_can_miss :
    (Update hSeq1 0 ["5"] { kind := .kscalar, value := "9" }).2 = none ∧
    (Get (Update hSeq1 0 ["5"] { kind := .kscalar, value := "9" }).1
        0 ["5"]).1 = none := by decide

/-- C9 amended: the round trip holds for every tree and every
single-segment concretely-addressed path that resolves to exactly one
existing node: a mapping whose key segment matches exactly one pair (at
any even position, with any other pairs around it), or a sequence
index in range, with the stored node and the replacement of plain
nonzero, non-document kind.  Update rewrites that very node in place and
the immediate Get returns it, holding exactly the replacement's fields.
Paths that resolve to no node (the counterexample's out-of-range index)
make Update a silent no-op and Get return no-result instead. -/
theorem C9_update_then_get_roundtrip :
    (∀ (h : Heap) (mapId : NodeId) (s : String) (pre post : List NodeId)
        (kId vId : NodeId) (v : YNodeData),
      (h.get mapId).kind = .kmap →
      (h.get mapId).content = pre ++ kId :: vId :: post →
      pre.length % 2 = 0 →
      s ≠ "*" →
      matchesKey s (h.get kId).value = true →
      (∀ i < (h.get mapId).content.length, i % 2 = 0 → i ≠ pre.length →
        matchesKey s (h.get ((h.get mapId).content.getD i 0)).value = false) →
      (∀ i < (h.get mapId).content.length, i % 2 = 0 →
        (h.get mapId).content.getD i 0 ≠ vId) →
      mapId ≠ vId →
      (h.get vId).kind ≠ .knone → (h.get vId).kind ≠ .kdoc →
      v.kind ≠ .knone → v.kind ≠ .kdoc →
      Update h mapId [s] v = (h.set vId v, none) ∧
      Get (h.set vId v) mapId [s] = (some vId, h.set vId v, none) ∧
      (h.set vId v).get vId = v) ∧
    (∀ (h : Heap) (seqId : NodeId) (str : String) (i : Int) (x : NodeId)
        (v : YNodeData),
      (h.get seqId).kind = .kseq →
      parseGoInt str = some i → 0 ≤ i →
      i < ((h.get seqId).content.length : Int) →
      (h.get seqId).content.getD i.toNat 0 = x →
      x ≠ seqId →
      (h.get x).kind ≠ .knone → (h.get x).kind ≠ .kdoc →
      v.kind ≠ .knone → v.kind ≠ .kdoc →
      Update h seqId [str] v = (h.set x v, none) ∧
      Get (h.set x v) seqId [str] = (some x, h.set x v, none) ∧
      (h.set x v).get x = v) := by
  constructor
  · intro h mapId s pre post kId vId v hk hc hpe hs hm hnm hkne hmv hdk hdkd
      hv hvd
    have hmlt : mapId < h.data.length := id_lt_of_kind hk (by decide)
    have hvlt : vId < h.data.length := id_lt_of_kind rfl hdk
    have hdoc : unwrapDoc h mapId = some mapId := by
      unfold unwrapDoc
      rw [hk]
      simp
    have hClen : (h.get mapId).content.length
        = pre.length + post.length + 2 := by
      rw [hc]
      simp [List.length_append]
      omega
    have hgetp : (h.get mapId).content.getD pre.length 0 = kId := by
      rw [hc, List.getD_append_right _ _ _ _ (le_refl _)]
      simp
    have hgetv : (pre ++ kId :: vId :: post).getD (pre.length + 1) 0
        = vId := by
      rw [List.getD_append_right _ _ _ _ (by omega)]
      rw [show pre.length + 1 - pre.length = 1 by omega]
      simp
    have hkIdne : kId ≠ vId := by
      have hx := hkne pre.length (by omega) hpe
      rw [hgetp] at hx
      exact hx
    have hCD : ∀ j, (h.get mapId).content.getD (pre.length + 2 + j) 0
        = post.getD j 0 := by
      intro j
      rw [hc, show pre ++ kId :: vId :: post = (pre ++ [kId, vId]) ++ post
        from by simp]
      rw [List.getD_append_right _ _ _ _ (by
        simp only [List.length_append, List.length_cons, List.length_nil]
        omega)]
      rw [show pre.length + 2 + j - (pre ++ [kId, vId]).length = j from by
        simp only [List.length_append, List.length_cons, List.length_nil]
        omega]
    have hpreKeys : ∀ j < pre.length,
        pre.getD j 0 = (h.get mapId).content.getD j 0 := by
      intro j hj
      rw [hc, List.getD_append _ _ _ _ hj]
    have hgr1 : getOrReplace h vId (guessKind [] (h.get vId).kind)
        = (vId, h) := getOrReplace_eq_self h vId hdk
    have hset1 : h.set mapId { h.get mapId with
        content := (h.get mapId).content.set (pre.length + 1) vId } = h := by
      apply Heap.set_content_self h mapId hmlt
      rw [hc]
      exact set_append_snd pre kId vId post
    have hvt1 : Visit (updateVisitor v) [] () h vId
        = ((), h.set vId v, none) := by
      simp only [Visit]
      rw [show unwrapDoc h vId = some vId from by
        unfold unwrapDoc
        rw [if_neg hdkd]]
      unfold updateVisitor
      rfl
    have hpre1 : ∀ j < pre.length, j % 2 = 0 →
        matchesKey s (h.get (pre.getD j 0)).value = false := by
      intro j hj hpj
      have hx := hnm j (by omega) hpj (by omega)
      rw [hpreKeys j hj]
      exact hx
    have hpost1 : ∀ j < post.length, (pre.length + 2 + j) % 2 = 0 →
        matchesKey s (((h.set vId v).get (post.getD j 0)).value) = false := by
      intro j hj hpj
      have hxne : post.getD j 0 ≠ vId := by
        have hx := hkne (pre.length + 2 + j) (by omega) hpj
        rw [hCD j] at hx
        exact hx
      rw [Heap.get_set_ne h vId v _ hxne]
      have hx := hnm (pre.length + 2 + j) (by omega) hpj (by omega)
      rw [hCD j] at hx
      exact hx
    have hsingle1 := visitMatchingEntries_single s []
      (Visit (updateVisitor v) []) mapId h pre post kId vId () ()
      (h.set vId v) hc hpe hm hpre1 hgr1 hset1 hvt1 hpost1
    have hvisU : Visit (updateVisitor v) [s] () h mapId
        = ((), h.set vId v, none) := by
      rw [Visit]
      simp only [hdoc, hk]
      rw [if_neg hs]
      unfold recurseMap
      rw [hc, hsingle1]
    have hU : Update h mapId [s] v = (h.set vId v, none) := by
      unfold Update
      rw [hvisU]
    have hk3 : ((h.set vId v).get mapId).kind = .kmap := by
      rw [Heap.get_set_ne h vId v mapId hmv]
      exact hk
    have hc3 : ((h.set vId v).get mapId).content
        = pre ++ kId :: vId :: post := by
      rw [Heap.get_set_ne h vId v mapId hmv]
      exact hc
    have hv3 : (h.set vId v).get vId = v := Heap.get_set_self h vId v hvlt
    have hdoc3 : unwrapDoc (h.set vId v) mapId = some mapId := by
      unfold unwrapDoc
      rw [hk3]
      simp
    have hm3 : matchesKey s (((h.set vId v).get kId).value) = true := by
      rw [Heap.get_set_ne h vId v kId hkIdne]
      exact hm
    have hgr3 : getOrReplace (h.set vId v) vId
        (guessKind [] (((h.set vId v).get vId)).kind) = (vId, h.set vId v) :=
      getOrReplace_eq_self (h.set vId v) vId (by rw [hv3]; exact hv)
    have hset3 : (h.set vId v).set mapId { (h.set vId v).get mapId with
        content := ((h.set vId v).get mapId).content.set (pre.length + 1)
          vId } = h.set vId v := by
      apply Heap.set_content_self (h.set vId v) mapId
        (by rw [Heap.length_set]; exact hmlt)
      rw [hc3]
      exact set_append_snd pre kId vId post
    have hvt3 : Visit getVisitor [] [] (h.set vId v) vId
        = ([vId], h.set vId v, none) := by
      simp only [Visit]
      rw [show unwrapDoc (h.set vId v) vId = some vId from by
        unfold unwrapDoc
        rw [hv3]
        rw [if_neg hvd]]
      unfold getVisitor
      simp
    have hpre3 : ∀ j < pre.length, j % 2 = 0 →
        matchesKey s (((h.set vId v).get (pre.getD j 0)).value) = false := by
      intro j hj hpj
      have hxne : pre.getD j 0 ≠ vId := by
        have hx := hkne j (by omega) hpj
        rw [← hpreKeys j hj] at hx
        exact hx
      rw [Heap.get_set_ne h vId v _ hxne]
      exact hpre1 j hj hpj
    have hsingle3 := visitMatchingEntries_single s [] (Visit getVisitor [])
      mapId (h.set vId v) pre post kId vId [] [vId] (h.set vId v) hc3 hpe hm3
      hpre3 hgr3 hset3 hvt3 hpost1
    have hvisG : Visit getVisitor [s] [] (h.set vId v) mapId
        = ([vId], h.set vId v, none) := by
      rw [Visit]
      simp only [hdoc3, hk3]
      rw [if_neg hs]
      unfold recurseMap
      rw [hc3, hsingle3]
    have hG : Get (h.set vId v) mapId [s]
        = (some vId, h.set vId v, none) := by
      unfold Get
      rw [hvisG]
      rfl
    exact ⟨hU, hG, hv3⟩
  · intro h seqId str i x v hk hpi h0 hin hxdef hxs hxk hxd hv hvd
    have hslt : seqId < h.data.length := id_lt_of_kind hk (by decide)
    have hxlt : x < h.data.length := id_lt_of_kind rfl hxk
    have hsne : str ≠ "*" := by
      intro he
      rw [he, (by decide : parseGoInt "*" = (none : Option Int))] at hpi
      cases hpi
    have hpne : str ≠ "+" := by
      intro he
      rw [he, (by decide : parseGoInt "+" = (none : Option Int))] at hpi
      cases hpi
    have hdoc : unwrapDoc h seqId = some seqId := by
      unfold unwrapDoc
      rw [hk]
      simp
    have hvisU : Visit (updateVisitor v) [str] () h seqId
        = ((), h.set x v, none) := by
      simp only [Visit, hdoc, hk]
      rw [if_neg hsne, if_neg hpne]
      unfold recurseArray
      simp only [hpi]
      rw [if_neg (not_le.mpr hin), if_neg (not_lt.mpr h0)]
      rw [hxdef]
      rw [getOrReplace_eq_self h x hxk]
      dsimp only
      rw [Heap.set_content_self h seqId hslt _ (by
        rw [← hxdef]
        exact list_set_getD_self _ _ _ (by omega))]
      rw [show unwrapDoc h x = some x from by
        unfold unwrapDoc
        rw [if_neg hxd]]
      unfold updateVisitor
      rfl
    have hU : Update h seqId [str] v = (h.set x v, none) := by
      unfold Update
      rw [hvisU]
    have hk3 : ((h.set x v).get seqId).kind = .kseq := by
      rw [Heap.get_set_ne h x v seqId (Ne.symm hxs)]
      exact hk
    have hc3 : ((h.set x v).get seqId).content = (h.get seqId).content := by
      rw [Heap.get_set_ne h x v seqId (Ne.symm hxs)]
    have hv3 : (h.set x v).get x = v := Heap.get_set_self h x v hxlt
    have hdoc3 : unwrapDoc (h.set x v) seqId = some seqId := by
      unfold unwrapDoc
      rw [hk3]
      simp
    have hvisG : Visit getVisitor [str] [] (h.set x v) seqId
        = ([x], h.set x v, none) := by
      simp only [Visit, hdoc3, hk3]
      rw [if_neg hsne, if_neg hpne]
      unfold recurseArray
      simp only [hpi]
      rw [hc3]
      rw [if_neg (not_le.mpr hin), if_neg (not_lt.mpr h0)]
      rw [hxdef]
      rw [getOrReplace_eq_self (h.set x v) x (by rw [hv3]; exact hv)]
      dsimp only
      rw [Heap.set_content_self (h.set x v) seqId
        (by rw [Heap.length_set]; exact hslt) _ (by
          rw [hc3]
          rw [← hxdef]
          exact list_set_getD_self _ _ _ (by omega))]
      rw [show unwrapDoc (h.set x v) x = some x from by
        unfold unwrapDoc
        rw [hv3]
        rw [if_neg hvd]]
      unfold getVisitor
      simp
    have hG : Get (h.set x v) seqId [str] = (some x, h.set x v, none) := by
      unfold Get
      rw [hvisG]
      rfl
    exact ⟨hU, hG, hv3⟩

/-- C9 witness: both round-trip families at concrete inputs: the mapping
{u: 7, a: 1, b: 2} updated at ["a"] (the matching pair sits in the
middle, at even position 2), and the sequence [10, 20] updated at ["1"]
(a nonzero in-range index), both with the scalar replacement 9. -/
theorem C9_witness :
    (Update hThreeKeys 0 ["a"] { kind := .kscalar, value := "9", tag := "t" }
        = (hThreeKeys.set 4
            { kind := .kscalar, value := "9", tag := "t" }, none) ∧
      Get (hThreeKeys.set 4 { kind := .kscalar, value := "9", tag := "t" })
          0 ["a"]
        = (some 4,
           hThreeKeys.set 4 { kind := .kscalar, value := "9", tag := "t" },
           none) ∧
      (hThreeKeys.set 4 { kind := .kscalar, value := "9", tag := "t" }).get 4
        = { kind := .kscalar, value := "9", tag := "t" }) ∧
    (Update hSeqTwo10 0 ["1"] { kind := .kscalar, value := "9", tag := "t" }
        = (hSeqTwo10.set 2
            { kind := .kscalar, value := "9", tag := "t" }, none) ∧
      Get (hSeqTwo10.set 2 { kind := .kscalar, value := "9", tag := "t" })
          0 ["1"]
        = (some 2,
           hSeqTwo10.set 2 { kind := .kscalar, value := "9", tag := "t" },
           none) ∧
      (hSeqTwo10.set 2 { kind := .kscalar, value := "9", tag := "t" }).get 2
        = { kind := .kscalar, value := "9", tag := "t" }) :=
  ⟨C9_update_then_get_roundtrip.1 hThreeKeys 0 "a" [1, 2] [5, 6] 3 4
      { kind := .kscalar, value := "9", tag := "t" } (by decide) (by decide)
      (by decide) (by decide) (by decide) (by decide) (by decide) (by decide)
      (by decide) (by decide) (by decide) (by decide),
   C9_update_then_get_roundtrip.2 hSeqTwo10 0 "1" 1 2
      { kind := .kscalar, value := "9", tag := "t" } (by decide) (by decide)
      (by decide) (by decide) (by decide) (by decide) (by decide) (by decide)
      (by decide) (by decide)⟩

/-! C10: bounds safety of the numeric-index accesses.  The single
i >= len guard is sufficient only for non-negative parses; negative
segments such as "-1" parse successfully, pass the guard, and then the
Content[i] access (or the original[:i] slice in Delete) panics. -/

/-- C10 counterexample: on the sequence [10], the segment "-1" parses,
passes the i >= len guard, and both the traversal and Delete then hit an
out-of-range access (modelled as the panic value), so the guard alone
does not keep the accesses in bounds. -/
theorem C10_negative_index_panics :
    Visit getVisitor ["-1"] [] hSeq1 0 = ([], hSeq1, some GoErr.panicBounds) ∧
    Delete hSeq1 0 ["-1"] = (hSeq1, some GoErr.panicBounds) := by decide

/-- C10 amended: for head and delete-target segments parsing to a
non-negative integer, the single i >= len guard is sufficient: below the
guard the index is in range and the traversal performs the normal
coerce-store-visit step, and Delete's sequence callback never panics,
splicing exactly when the index is in range. -/
theorem C10_nonnegative_guard_sufficient :
    (∀ {σ : Type} (vis : Visitor σ) (st : σ) (h : Heap) (id : NodeId)
        (head : String) (tail : List String) (i : Int),
      (h.get id).kind = .kseq → head ≠ "*" → head ≠ "+" →
      parseGoInt head = some i → 0 ≤ i →
      i < ((h.get id).content.length : Int) →
      i.toNat < (h.get id).content.length ∧
      Visit vis (head :: tail) st h id =
        inBoundsIndexStep tail (Visit vis tail) id i.toNat st h) ∧
    (∀ (h : Heap) (id : NodeId) (lastBit : String) (i : Int),
      (h.get id).kind = .kseq → parseGoInt lastBit = some i → 0 ≤ i →
      deleteVisitor lastBit () h id =
        ((), (if i < ((h.get id).content.length : Int) then
                h.set id { h.get id with
                  content := (h.get id).content.take i.toNat ++
                             (h.get id).content.drop (i.toNat + 1) }
              else h), none)) := by
  constructor
  · intro σ vis st h id head tail i hk hs hp hpi h0 hlt
    have hdoc : unwrapDoc h id = some id := by
      unfold unwrapDoc
      rw [hk]
      simp
    refine ⟨by omega, ?_⟩
    simp only [Visit, hdoc, hk]
    rw [if_neg hs, if_neg hp]
    unfold recurseArray
    simp only [hpi]
    rw [if_neg (not_le.mpr hlt), if_neg (not_lt.mpr h0)]
    rfl
  · intro h id lastBit i hk hpi h0
    unfold deleteVisitor
    rw [if_pos hk]
    simp only [hpi]
    by_cases hlt : i < ((h.get id).content.length : Int)
    · rw [if_neg (not_le.mpr hlt), if_neg (not_lt.mpr h0), if_pos hlt]
    · rw [if_pos (not_lt.mp hlt), if_neg hlt]

/-- C10 witness: on the sequence [10] with segment "0", the traversal
takes the in-bounds step at position 0 and Delete's callback splices the
element out without any panic. -/
theorem C10_witness :
    ((0 : Int).toNat < ((hSeq1.get 0).content.length) ∧
      Visit getVisitor ["0"] [] hSeq1 0 =
        inBoundsIndexStep [] (Visit getVisitor []) 0 (0 : Int).toNat [] hSeq1) ∧
    deleteVisitor "0" () hSeq1 0 =
      ((), (if (0 : Int) < ((hSeq1.get 0).content.length : Int) then
              hSeq1.set 0 { hSeq1.get 0 with
                content := (hSeq1.get 0).content.take (0 : Int).toNat ++
                           (hSeq1.get 0).content.drop ((0 : Int).toNat + 1) }
            else hSeq1), none) :=
  ⟨C10_nonnegative_guard_sufficient.1 getVisitor [] hSeq1 0 "0" [] 0
      (by decide) (by decide) (by decide) (by decide) (by decide) (by decide),
   C10_nonnegative_guard_sufficient.2 hSeq1 0 "0" 0
      (by decide) (by decide) (by decide)⟩

end Yq
